import Mathlib

/-!
Verification of the USSD analytics dashboard metrics-derivation logic.

This file gives a shallow embedding, in Lean 4, of the client-side
metrics-aggregation functions of the `ussd-analytics-dashboard` frontend:

* `calculateMetrics` from `src/components/TransactionVolumeChart.tsx`
  (summary metrics: total, average, peak, revenue, trend, success rate,
  week-over-week growth rate);
* `calculateDayStats`, `generateHourlyData`, and the reductions inside
  `generateDynamicInsights` from the peak-hours heatmap component;
* `calculateServiceStats` and the fastest-growth selection from the
  revenue-trends component.

JavaScript numbers are idealised as exact rationals extended with the
IEEE-754 special values `+Infinity`, `-Infinity` and `NaN` (`JSVal` below).
All inputs fetched from the backend are finite, so sums stay finite and
the special values can only be produced by the divisions appearing in the
source; the embedding reproduces the JS semantics of `/`, `*`, `-`, `>`,
`||` and `Math.round` on those values exactly (modulo the idealisation of
finite doubles as rationals, which is irrelevant to the claims proved
here: none of them concern binary rounding error).
-/

/-- A JavaScript number: a finite value (idealised as a rational), a signed
infinity (`inf true` is `+Infinity`), or `NaN`. -/
inductive JSVal : Type where
  | num (q : ℚ)
  | inf (pos : Bool)
  | nan
deriving DecidableEq, Repr

namespace JSVal

/-- JS `+` on numbers (finite + finite is exact; infinities of opposite
sign give `NaN`; `NaN` propagates). -/
def add : JSVal → JSVal → JSVal
  | num a, num b => num (a + b)
  | nan, _ => nan
  | _, nan => nan
  | inf s, inf t => if s = t then inf s else nan
  | inf s, num _ => inf s
  | num _, inf t => inf t

/-- JS unary `-`. -/
def neg : JSVal → JSVal
  | num a => num (-a)
  | inf s => inf (!s)
  | nan => nan

/-- JS `-`, which is exactly `a + (-b)`. -/
def sub (a b : JSVal) : JSVal := add a (neg b)

/-- JS `*`.  `Infinity * 0 = NaN`; otherwise signs multiply. -/
def mul : JSVal → JSVal → JSVal
  | num a, num b => num (a * b)
  | nan, _ => nan
  | _, nan => nan
  | inf s, inf t => inf (s == t)
  | inf s, num b => if b = 0 then nan else inf (s == decide (0 < b))
  | num a, inf t => if a = 0 then nan else inf (t == decide (0 < a))

/-- JS `/`.  Division of a nonzero finite value by `0` gives a signed
infinity (the model's `0` is IEEE `+0`), `0 / 0 = NaN`, finite over
infinite is `0`, infinite over infinite is `NaN`. -/
def div : JSVal → JSVal → JSVal
  | num a, num b =>
      if b = 0 then (if a = 0 then nan else inf (decide (0 < a))) else num (a / b)
  | nan, _ => nan
  | _, nan => nan
  | inf _, inf _ => nan
  | inf s, num b => inf (s == decide (0 ≤ b))
  | num _, inf _ => num 0

/-- JS `<` (false whenever either side is `NaN`). -/
def lt : JSVal → JSVal → Bool
  | num a, num b => decide (a < b)
  | nan, _ => false
  | _, nan => false
  | inf s, inf t => !s && t
  | inf s, num _ => !s
  | num _, inf t => t

/-- JS truthiness test restricted to numbers: `0` and `NaN` are falsy. -/
def falsy : JSVal → Bool
  | num a => a == 0
  | nan => true
  | inf _ => false

/-- JS `a || b` on numbers: `b` when `a` is falsy, else `a`. -/
def orElse (a b : JSVal) : JSVal := if falsy a then b else a

/-- JS `Math.round`: round half towards `+Infinity` on finite values,
identity on `±Infinity` and `NaN`. -/
def round : JSVal → JSVal
  | num a => num ((⌊a + 1/2⌋ : ℤ) : ℚ)
  | inf s => inf s
  | nan => nan

/-- The finite value of a `JSVal`, with `0` for the special values.  Used
only to state theorems about sums of finite results. -/
def toQ : JSVal → ℚ
  | num q => q
  | inf _ => 0
  | nan => 0

end JSVal

/-- The `Math.round` operation on a value known to be finite. -/
def qRound (x : ℚ) : ℚ := ((⌊x + 1/2⌋ : ℤ) : ℚ)

/-- The pattern `list.reduce((sum, d) => sum + f(d), 0)` — the summation used
throughout the dashboard code. -/
def sumQ {α : Type} (f : α → ℚ) (l : List α) : ℚ :=
  l.foldl (fun s d => s + f d) 0

theorem sumQ_eq_sum_map {α : Type} (f : α → ℚ) (l : List α) :
    sumQ f l = (l.map f).sum := by
  have h : ∀ (l : List α) (a : ℚ), l.foldl (fun s d => s + f d) a = a + (l.map f).sum := by
    intro l
    induction l with
    | nil => intro a; simp
    | cons x t ih => intro a; simp [ih, add_assoc]
  simpa using h l 0

/-- The pattern `list.reduce((mx, d) => q d > q mx ? d : mx, a)` — the left fold that
keeps the incumbent unless the next element is strictly greater, i.e. the
first maximum wins.  This is the shape used by `calculateMetrics` for
`peakDay` and by `calculateDayStats` for the per-day peak cell. -/
def pickF {α : Type} (q : α → ℚ) (a : α) (l : List α) : α :=
  l.foldl (fun mx d => if q mx < q d then d else mx) a

/-- The pattern `list.reduce((a, b) => q a > q b ? a : b)` (no initial value) — the
fold that keeps the incumbent only when strictly greater, i.e. the LAST
maximum wins on ties.  This is the shape used by the heatmap insight
reductions. -/
def pickL {α : Type} (q : α → ℚ) (a : α) (l : List α) : α :=
  l.foldl (fun x y => if q y < q x then x else y) a

/-- The pattern `list.reduce((a, b) => q a < q b ? a : b)` — last minimum wins. -/
def pickLmin {α : Type} (q : α → ℚ) (a : α) (l : List α) : α :=
  l.foldl (fun x y => if q x < q y then x else y) a

theorem pickF_max {α : Type} (q : α → ℚ) (a : α) (l : List α) :
    ∀ x ∈ a :: l, q x ≤ q (pickF q a l) := by
  induction l generalizing a with
  | nil =>
    intro x hx
    rw [List.mem_cons] at hx
    rcases hx with rfl | hx
    · exact le_refl _
    · simp at hx
  | cons b t ih =>
    intro x hx
    have hstep : pickF q a (b :: t) = pickF q (if q a < q b then b else a) t := rfl
    rw [hstep]
    rw [List.mem_cons, List.mem_cons] at hx
    rcases hx with rfl | rfl | hx
    · refine le_trans ?_ (ih _ _ (List.mem_cons_self _ _))
      by_cases hab : q x < q b
      · rw [if_pos hab]; exact le_of_lt hab
      · rw [if_neg hab]
    · refine le_trans ?_ (ih _ _ (List.mem_cons_self _ _))
      by_cases hab : q a < q x
      · rw [if_pos hab]
      · rw [if_neg hab]; exact le_of_not_lt hab
    · exact ih _ x (List.mem_cons_of_mem _ hx)

theorem pickF_first {α : Type} (q : α → ℚ) (a : α) (l : List α) :
    ∃ pre post, a :: l = pre ++ pickF q a l :: post ∧
      ∀ x ∈ pre, q x < q (pickF q a l) := by
  induction l generalizing a with
  | nil => exact ⟨[], [], rfl, by simp⟩
  | cons b t ih =>
    have hstep : pickF q a (b :: t) = pickF q (if q a < q b then b else a) t := rfl
    by_cases hab : q a < q b
    · rw [hstep, if_pos hab]
      obtain ⟨pre, post, heq, hpre⟩ := ih b
      refine ⟨a :: pre, post, ?_, ?_⟩
      · rw [List.cons_append, ← heq]
      · intro x hx
        rw [List.mem_cons] at hx
        rcases hx with rfl | hx
        · exact lt_of_lt_of_le hab (pickF_max q b t b (List.mem_cons_self _ _))
        · exact hpre x hx
    · rw [hstep, if_neg hab]
      obtain ⟨pre, post, heq, hpre⟩ := ih a
      cases pre with
      | nil =>
        rw [List.nil_append, List.cons.injEq] at heq
        refine ⟨[], b :: t, ?_, by simp⟩
        rw [List.nil_append, ← heq.1]
      | cons p ps =>
        rw [List.cons_append, List.cons.injEq] at heq
        obtain ⟨hap, heq2⟩ := heq
        refine ⟨a :: b :: ps, post, ?_, ?_⟩
        · rw [List.cons_append, List.cons_append, ← heq2]
        · intro x hx
          rw [List.mem_cons, List.mem_cons] at hx
          rcases hx with rfl | rfl | hx
          · have hp := hpre p (List.mem_cons_self _ _)
            rw [← hap] at hp; exact hp
          · have hp := hpre p (List.mem_cons_self _ _)
            rw [← hap] at hp
            exact lt_of_le_of_lt (le_of_not_lt hab) hp
          · exact hpre x (List.mem_cons_of_mem _ hx)

theorem pickL_max {α : Type} (q : α → ℚ) (a : α) (l : List α) :
    ∀ x ∈ a :: l, q x ≤ q (pickL q a l) := by
  induction l generalizing a with
  | nil =>
    intro x hx
    rw [List.mem_cons] at hx
    rcases hx with rfl | hx
    · exact le_refl _
    · simp at hx
  | cons b t ih =>
    intro x hx
    have hstep : pickL q a (b :: t) = pickL q (if q b < q a then a else b) t := rfl
    rw [hstep]
    rw [List.mem_cons, List.mem_cons] at hx
    rcases hx with rfl | rfl | hx
    · refine le_trans ?_ (ih _ _ (List.mem_cons_self _ _))
      by_cases hba : q b < q x
      · rw [if_pos hba]
      · rw [if_neg hba]; exact le_of_not_lt hba
    · refine le_trans ?_ (ih _ _ (List.mem_cons_self _ _))
      by_cases hba : q x < q a
      · rw [if_pos hba]; exact le_of_lt hba
      · rw [if_neg hba]
    · exact ih _ x (List.mem_cons_of_mem _ hx)

theorem pickL_last {α : Type} (q : α → ℚ) (a : α) (l : List α) :
    ∃ pre post, a :: l = pre ++ pickL q a l :: post ∧
      ∀ x ∈ post, q x < q (pickL q a l) := by
  induction l generalizing a with
  | nil => exact ⟨[], [], rfl, by simp⟩
  | cons b t ih =>
    have hstep : pickL q a (b :: t) = pickL q (if q b < q a then a else b) t := rfl
    by_cases hba : q b < q a
    · rw [hstep, if_pos hba]
      obtain ⟨pre, post, heq, hpost⟩ := ih a
      cases pre with
      | nil =>
        rw [List.nil_append, List.cons.injEq] at heq
        obtain ⟨ham, heq2⟩ := heq
        refine ⟨[], b :: t, ?_, ?_⟩
        · rw [List.nil_append, ← ham]
        · intro x hx
          rw [List.mem_cons] at hx
          rcases hx with rfl | hx
          · rw [← ham]; exact hba
          · rw [← ham]
            have hx2 : x ∈ post := by rw [heq2] at hx; exact hx
            have := hpost x hx2
            rw [← ham] at this; exact this
      | cons p ps =>
        rw [List.cons_append, List.cons.injEq] at heq
        obtain ⟨hap, heq2⟩ := heq
        refine ⟨a :: b :: ps, post, ?_, hpost⟩
        rw [List.cons_append, List.cons_append, ← heq2]
    · rw [hstep, if_neg hba]
      obtain ⟨pre, post, heq, hpost⟩ := ih b
      refine ⟨a :: pre, post, ?_, hpost⟩
      rw [List.cons_append, ← heq]

theorem pickLmin_min {α : Type} (q : α → ℚ) (a : α) (l : List α) :
    ∀ x ∈ a :: l, q (pickLmin q a l) ≤ q x := by
  induction l generalizing a with
  | nil =>
    intro x hx
    rw [List.mem_cons] at hx
    rcases hx with rfl | hx
    · exact le_refl _
    · simp at hx
  | cons b t ih =>
    intro x hx
    have hstep : pickLmin q a (b :: t) = pickLmin q (if q a < q b then a else b) t := rfl
    rw [hstep]
    rw [List.mem_cons, List.mem_cons] at hx
    rcases hx with rfl | rfl | hx
    · refine le_trans (ih _ _ (List.mem_cons_self _ _)) ?_
      by_cases hab : q x < q b
      · rw [if_pos hab]
      · rw [if_neg hab]; exact le_of_not_lt hab
    · refine le_trans (ih _ _ (List.mem_cons_self _ _)) ?_
      by_cases hab : q a < q x
      · rw [if_pos hab]; exact le_of_lt hab
      · rw [if_neg hab]
    · exact ih _ x (List.mem_cons_of_mem _ hx)

theorem pickLmin_last {α : Type} (q : α → ℚ) (a : α) (l : List α) :
    ∃ pre post, a :: l = pre ++ pickLmin q a l :: post ∧
      ∀ x ∈ post, q (pickLmin q a l) < q x := by
  induction l generalizing a with
  | nil => exact ⟨[], [], rfl, by simp⟩
  | cons b t ih =>
    have hstep : pickLmin q a (b :: t) = pickLmin q (if q a < q b then a else b) t := rfl
    by_cases hab : q a < q b
    · rw [hstep, if_pos hab]
      obtain ⟨pre, post, heq, hpost⟩ := ih a
      cases pre with
      | nil =>
        rw [List.nil_append, List.cons.injEq] at heq
        obtain ⟨ham, heq2⟩ := heq
        refine ⟨[], b :: t, ?_, ?_⟩
        · rw [List.nil_append, ← ham]
        · intro x hx
          rw [List.mem_cons] at hx
          rcases hx with rfl | hx
          · rw [← ham]; exact hab
          · rw [← ham]
            have hx2 : x ∈ post := by rw [heq2] at hx; exact hx
            have := hpost x hx2
            rw [← ham] at this; exact this
      | cons p ps =>
        rw [List.cons_append, List.cons.injEq] at heq
        obtain ⟨hap, heq2⟩ := heq
        refine ⟨a :: b :: ps, post, ?_, hpost⟩
        rw [List.cons_append, List.cons_append, ← heq2]
    · rw [hstep, if_neg hab]
      obtain ⟨pre, post, heq, hpost⟩ := ih b
      refine ⟨a :: pre, post, ?_, hpost⟩
      rw [List.cons_append, ← heq]

/-! ## Transaction volume chart: `calculateMetrics` -/

/-- Interface `ChartDataPoint` from `TransactionVolumeChart.tsx` (numeric fields
idealised as rationals). -/
structure ChartDataPoint : Type where
  date : String
  fullDate : String
  dayOfWeek : String
  total : ℚ
  electricity : ℚ
  water : ℚ
  airtime : ℚ
  mobileMoney : ℚ
  banking : ℚ
  avgSessionTime : ℚ
  successRate : ℚ
  revenue : ℚ
  failedTransactions : ℚ
  peakConcurrentUsers : ℚ
deriving DecidableEq, Repr

/-- Interface `SummaryMetrics` from `TransactionVolumeChart.tsx`.  `trend` and
`growthRate` are `JSVal` because the source computes them with divisions
that can produce `Infinity`/`NaN`; the other fields are finite for every
input. -/
structure SummaryMetrics : Type where
  totalTransactions : ℚ
  avgTransactions : ℚ
  peakDay : String × ℚ
  revenueTotal : ℚ
  trend : JSVal
  successRate : ℚ
  growthRate : JSVal
deriving DecidableEq, Repr

/-- The non-empty branch of `calculateMetrics` (lines 251-291 of
`TransactionVolumeChart.tsx`), for input `data = h :: t`:

* `totalTransactions = data.reduce((sum, d) => sum + d.total, 0)`
* `avgTransactions = Math.round(totalTransactions / data.length)`
* `peakDay = data.reduce((max, d) => d.total > max.total ? d : max, data[0])`
* `revenueTotal = Math.round(data.reduce((sum, d) => sum + d.revenue, 0))`
* `trend`: first half `slice(0, mid)` vs second half `slice(mid)` with
  `mid = floor(length / 2)`; `((secondAvg - firstAvg) / firstAvg) * 100`,
  with NO guard against a zero or undefined `firstAvg`;
* `growthRate`: `slice(-7)` vs `slice(-14, -7)`, each averaged over
  `Math.min(7, length)` elements, guarded by `previousAvg > 0 ? ... : 0`;
* both `trend` and `growthRate` are then `Math.round(x * 10) / 10`;
* `successRate = Math.round(avg * 10) / 10` of the per-record rates. -/
def calcNonempty (h : ChartDataPoint) (t : List ChartDataPoint) : SummaryMetrics :=
  let data := h :: t
  let totalTransactions := sumQ (fun d => d.total) data
  let avgTransactions := qRound (totalTransactions / (data.length : ℚ))
  let peakDay := pickF (fun d => d.total) h data
  let revenueTotal := sumQ (fun d => d.revenue) data
  let avgSuccessRate := sumQ (fun d => d.successRate) data / (data.length : ℚ)
  let midpoint := data.length / 2
  let firstHalf := data.take midpoint
  let secondHalf := data.drop midpoint
  let firstAvg := JSVal.div (JSVal.num (sumQ (fun d => d.total) firstHalf))
    (JSVal.num (firstHalf.length : ℚ))
  let secondAvg := JSVal.div (JSVal.num (sumQ (fun d => d.total) secondHalf))
    (JSVal.num (secondHalf.length : ℚ))
  let trend := JSVal.mul (JSVal.div (JSVal.sub secondAvg firstAvg) firstAvg) (JSVal.num 100)
  let recentWeek := data.drop (data.length - 7)
  let previousWeek := (data.take (data.length - 7)).drop (data.length - 14)
  let recentAvg := JSVal.div (JSVal.num (sumQ (fun d => d.total) recentWeek))
    (JSVal.num ((min 7 recentWeek.length : ℕ) : ℚ))
  let previousAvg := JSVal.div (JSVal.num (sumQ (fun d => d.total) previousWeek))
    (JSVal.num ((min 7 previousWeek.length : ℕ) : ℚ))
  let growthRate :=
    if JSVal.lt (JSVal.num 0) previousAvg then
      JSVal.mul (JSVal.div (JSVal.sub recentAvg previousAvg) previousAvg) (JSVal.num 100)
    else JSVal.num 0
  { totalTransactions := totalTransactions
    avgTransactions := avgTransactions
    peakDay := (peakDay.date, peakDay.total)
    revenueTotal := qRound revenueTotal
    trend := JSVal.div (JSVal.round (JSVal.mul trend (JSVal.num 10))) (JSVal.num 10)
    successRate := qRound (avgSuccessRate * 10) / 10
    growthRate := JSVal.div (JSVal.round (JSVal.mul growthRate (JSVal.num 10))) (JSVal.num 10) }

/-- Function `calculateMetrics` from `TransactionVolumeChart.tsx` (lines 238-292):
empty input returns the all-zero record, otherwise the computation above. -/
def calculateMetrics : List ChartDataPoint → SummaryMetrics
  | [] =>
    { totalTransactions := 0
      avgTransactions := 0
      peakDay := ("", 0)
      revenueTotal := 0
      trend := JSVal.num 0
      successRate := 0
      growthRate := JSVal.num 0 }
  | h :: t => calcNonempty h t

/-- Fixture helper: a `ChartDataPoint` with the given label, `total`,
`revenue` and `successRate`, all other fields zero/empty. -/
def mkPoint (date : String) (total revenue successRate : ℚ) : ChartDataPoint :=
  { date := date, fullDate := "", dayOfWeek := "", total := total,
    electricity := 0, water := 0, airtime := 0, mobileMoney := 0, banking := 0,
    avgSessionTime := 0, successRate := successRate, revenue := revenue,
    failedTransactions := 0, peakConcurrentUsers := 0 }

/-- C2: the empty input yields the all-zero `SummaryMetrics` — the source
returns the zero literal without any division, so no field is `NaN` (the
`trend`/`growthRate` fields are the finite number `0`) and no exception
is possible (the embedding is a total function). -/
theorem c2_empty_metrics :
    calculateMetrics [] =
      { totalTransactions := 0, avgTransactions := 0, peakDay := ("", 0),
        revenueTotal := 0, trend := JSVal.num 0, successRate := 0,
        growthRate := JSVal.num 0 } := rfl

/-- The input on which the unguarded `trend` division blows up: first-half
mean is `0`, second-half mean is `5`. -/
def c1FailInput : List ChartDataPoint := [mkPoint "a" 0 0 0, mkPoint "b" 5 0 0]

/-- C1 (code bug): on `[{total: 0}, {total: 5}]` the first-half mean is
`0`, and `calculateMetrics` returns `trend = +Infinity` — NOT `0` as the
spec requires — because the source computes
`((secondAvg - firstAvg) / firstAvg) * 100` with no zero guard (the
symmetric `growthRate` computation IS guarded by
`previousAvg > 0 ? ... : 0`). -/
theorem c1_trend_unguarded :
    (calculateMetrics c1FailInput).trend = JSVal.inf true ∧
      JSVal.inf true ≠ JSVal.num 0 := by
  constructor
  · norm_num [calculateMetrics, calcNonempty, c1FailInput, mkPoint, sumQ,
      List.foldl, List.take, List.drop, JSVal.div, JSVal.mul, JSVal.sub,
      JSVal.add, JSVal.neg, JSVal.round]
  · intro h
    exact JSVal.noConfusion h

/-- C5: on the 4-record input with totals `10, 20, 30, 40` (all other
fields arbitrary), `calculateMetrics` returns `total = 100`,
`average = 25`, `peak` = the fourth record (with its label and value 40),
and `trend = 133.3` (from `mean(10,20) = 15` vs `mean(30,40) = 35`). -/
theorem c5_scenario (d1 d2 d3 d4 : ChartDataPoint)
    (h1 : d1.total = 10) (h2 : d2.total = 20) (h3 : d3.total = 30) (h4 : d4.total = 40) :
    (calculateMetrics [d1, d2, d3, d4]).totalTransactions = 100 ∧
      (calculateMetrics [d1, d2, d3, d4]).avgTransactions = 25 ∧
      (calculateMetrics [d1, d2, d3, d4]).peakDay = (d4.date, 40) ∧
      (calculateMetrics [d1, d2, d3, d4]).trend = JSVal.num (1333 / 10) := by
  refine ⟨?_, ?_, ?_, ?_⟩ <;>
    norm_num [calculateMetrics, calcNonempty, sumQ, pickF, qRound, List.foldl,
      List.take, List.drop, h1, h2, h3, h4, JSVal.div, JSVal.mul, JSVal.sub,
      JSVal.add, JSVal.neg, JSVal.round]

/-- Witness for C5 at a concrete input. -/
theorem c5_scenario_witness :
    (calculateMetrics [mkPoint "a" 10 0 0, mkPoint "b" 20 0 0,
        mkPoint "c" 30 0 0, mkPoint "d" 40 0 0]).totalTransactions = 100 ∧
      (calculateMetrics [mkPoint "a" 10 0 0, mkPoint "b" 20 0 0,
        mkPoint "c" 30 0 0, mkPoint "d" 40 0 0]).avgTransactions = 25 ∧
      (calculateMetrics [mkPoint "a" 10 0 0, mkPoint "b" 20 0 0,
        mkPoint "c" 30 0 0, mkPoint "d" 40 0 0]).peakDay = ((mkPoint "d" 40 0 0).date, 40) ∧
      (calculateMetrics [mkPoint "a" 10 0 0, mkPoint "b" 20 0 0,
        mkPoint "c" 30 0 0, mkPoint "d" 40 0 0]).trend = JSVal.num (1333 / 10) :=
  c5_scenario (mkPoint "a" 10 0 0) (mkPoint "b" 20 0 0)
    (mkPoint "c" 30 0 0) (mkPoint "d" 40 0 0) rfl rfl rfl rfl

/-! ## Peak-hours heatmap: `calculateDayStats`, `generateHourlyData`,
`generateDynamicInsights` -/

/-- Interface `HeatmapCell` from the peak-hours heatmap component. -/
structure HeatmapCell : Type where
  day : String
  hour : String
  value : ℚ
  intensity : ℚ
  isPeak : Bool
deriving DecidableEq, Repr

/-- Interface `DayStats` from the peak-hours heatmap component. -/
structure DayStats : Type where
  day : String
  total : ℚ
  peak : ℚ
  peakHour : String
  isWeekend : Bool
deriving DecidableEq, Repr

/-- The fixed `days` array (Monday first). -/
def days : List String :=
  ["Monday", "Tuesday", "Wednesday", "Thursday", "Friday", "Saturday", "Sunday"]

/-- The fixed `hours` array of 12 two-hour buckets. -/
def hours : List String :=
  ["00-02", "02-04", "04-06", "06-08", "08-10", "10-12",
   "12-14", "14-16", "16-18", "18-20", "20-22", "22-00"]

/-- The body of the `days.map((day, index) => ...)` callback in
`calculateDayStats`: filter the day's cells, sum their values, and reduce
to the max-value cell with `dayCells[0]` as the initial accumulator.  When
`dayCells` is empty, `dayCells[0]` is `undefined`, the reduce returns it,
and the optional-chaining fallbacks `peakCell?.value || 0` /
`peakCell?.hour || ""` produce `0` / `""` — modelled by the `Option`
below. -/
def mkDayStat (cells : List HeatmapCell) (day : String) (index : ℕ) : DayStats :=
  let dayCells := cells.filter (fun c => c.day == day)
  let total := sumQ (fun c => c.value) dayCells
  let peakCell : Option HeatmapCell :=
    match dayCells with
    | [] => none
    | c :: _ => some (pickF (fun x => x.value) c dayCells)
  { day := day
    total := total
    peak := (peakCell.map (fun c => c.value)).getD 0
    peakHour := (peakCell.map (fun c => c.hour)).getD ""
    isWeekend := decide (5 ≤ index) }

/-- Function `calculateDayStats` from the heatmap component (lines 254-271):
`days.map((day, index) => ...)`. -/
def calculateDayStats (cells : List HeatmapCell) : List DayStats :=
  days.enum.map (fun p => mkDayStat cells p.2 p.1)

theorem pickF_cons_self {α : Type} (q : α → ℚ) (a : α) (l : List α) :
    pickF q a (a :: l) = pickF q a l := by
  simp only [pickF, List.foldl_cons, ite_self]

/-- C6: every selected peak is an element of its input, its value is
greater than or equal to every other element's value, and every element
strictly before it in input order has a strictly smaller value (so on
ties the earliest maximal element is selected).  This holds for the
summary-metrics `peakDay` (over the records' `total`, for any non-empty
record list `h :: t`) and for the per-day peak cell of the day statistics
(over the filtered day cells, whenever that filter is non-empty). -/
theorem c6_peak_selection (h : ChartDataPoint) (t : List ChartDataPoint)
    (cells : List HeatmapCell) (day : String) (index : ℕ)
    (c : HeatmapCell) (cs : List HeatmapCell)
    (hfil : cells.filter (fun x => x.day == day) = c :: cs) :
    (∃ m pre post,
      (calculateMetrics (h :: t)).peakDay = (m.date, m.total) ∧
      h :: t = pre ++ m :: post ∧
      (∀ x ∈ h :: t, x.total ≤ m.total) ∧
      (∀ x ∈ pre, x.total < m.total)) ∧
    (∃ m pre post,
      (mkDayStat cells day index).peak = m.value ∧
      (mkDayStat cells day index).peakHour = m.hour ∧
      c :: cs = pre ++ m :: post ∧
      (∀ x ∈ c :: cs, x.value ≤ m.value) ∧
      (∀ x ∈ pre, x.value < m.value)) := by
  constructor
  · refine ⟨pickF (fun d => d.total) h t, ?_⟩
    have hpd : (calculateMetrics (h :: t)).peakDay =
        ((pickF (fun d => d.total) h t).date, (pickF (fun d => d.total) h t).total) := by
      show ((pickF (fun d => d.total) h (h :: t)).date,
        (pickF (fun d => d.total) h (h :: t)).total) = _
      rw [pickF_cons_self]
    obtain ⟨pre, post, heq, hpre⟩ := pickF_first (fun d => d.total) h t
    exact ⟨pre, post, hpd, heq, pickF_max (fun d => d.total) h t, hpre⟩
  · refine ⟨pickF (fun x => x.value) c cs, ?_⟩
    have hstat : (mkDayStat cells day index).peak =
          (pickF (fun x => x.value) c cs).value ∧
        (mkDayStat cells day index).peakHour =
          (pickF (fun x => x.value) c cs).hour := by
      unfold mkDayStat
      rw [hfil]
      simp only [Option.map_some, Option.getD_some, pickF_cons_self]
      exact ⟨rfl, rfl⟩
    obtain ⟨pre, post, heq, hpre⟩ := pickF_first (fun x => x.value) c cs
    exact ⟨pre, post, hstat.1, hstat.2, heq, pickF_max (fun x => x.value) c cs, hpre⟩

/-- Witness for C6 at concrete inputs: two records with totals `1, 2` and
a single Monday cell. -/
theorem c6_peak_selection_witness :
    (∃ m pre post,
      (calculateMetrics [mkPoint "a" 1 0 0, mkPoint "b" 2 0 0]).peakDay = (m.date, m.total) ∧
      [mkPoint "a" 1 0 0, mkPoint "b" 2 0 0] = pre ++ m :: post ∧
      (∀ x ∈ [mkPoint "a" 1 0 0, mkPoint "b" 2 0 0], x.total ≤ m.total) ∧
      (∀ x ∈ pre, x.total < m.total)) ∧
    (∃ m pre post,
      (mkDayStat [HeatmapCell.mk "Monday" "00-02" 5 1 false] "Monday" 0).peak = m.value ∧
      (mkDayStat [HeatmapCell.mk "Monday" "00-02" 5 1 false] "Monday" 0).peakHour = m.hour ∧
      [HeatmapCell.mk "Monday" "00-02" 5 1 false] = pre ++ m :: post ∧
      (∀ x ∈ [HeatmapCell.mk "Monday" "00-02" 5 1 false], x.value ≤ m.value) ∧
      (∀ x ∈ pre, x.value < m.value)) :=
  c6_peak_selection (mkPoint "a" 1 0 0) [mkPoint "b" 2 0 0]
    [HeatmapCell.mk "Monday" "00-02" 5 1 false] "Monday" 0
    (HeatmapCell.mk "Monday" "00-02" 5 1 false) [] (by rfl)

/-- The concrete heatmap cell list of the C8 scenario: Monday has cells
with values 100 and 50 at hours 08-10 and 10-12. -/
def mondayCells : List HeatmapCell :=
  [HeatmapCell.mk "Monday" "08-10" 100 3 false,
   HeatmapCell.mk "Monday" "10-12" 50 2 false]

/-- C8: each day statistic totals the values of that day's matching
cells; a day with no matching cells yields `total = 0`, `peak = 0`,
`peakHour = ""`; and on the concrete scenario (Monday cells `100 @ 08-10`
and `50 @ 10-12`) the Monday day-stat is
`{total := 150, peak := 100, peakHour := "08-10"}`. -/
theorem c8_day_totals (cells : List HeatmapCell) (day : String) (index : ℕ) :
    (mkDayStat cells day index).total =
      ((cells.filter (fun c => c.day == day)).map (fun c => c.value)).sum ∧
    (cells.filter (fun c => c.day == day) = [] →
      (mkDayStat cells day index).total = 0 ∧
      (mkDayStat cells day index).peak = 0 ∧
      (mkDayStat cells day index).peakHour = "") ∧
    (calculateDayStats mondayCells).head? =
      some { day := "Monday", total := 150, peak := 100,
             peakHour := "08-10", isWeekend := false } := by
  refine ⟨?_, ?_, ?_⟩
  · unfold mkDayStat
    simp only [sumQ_eq_sum_map]
  · intro hempty
    unfold mkDayStat
    rw [hempty]
    exact ⟨rfl, rfl, rfl⟩
  · norm_num [calculateDayStats, days, List.enum, mkDayStat, mondayCells,
      List.filter, sumQ, List.foldl, pickF]

/-- Witness for C8 at a concrete input (empty cell list, day `"Monday"`),
discharging the empty-filter hypothesis. -/
theorem c8_day_totals_witness :
    (mkDayStat [] "Monday" 0).total = 0 ∧
    (mkDayStat [] "Monday" 0).peak = 0 ∧
    (mkDayStat [] "Monday" 0).peakHour = "" := by
  have h := (c8_day_totals [] "Monday" 0).2.1 (by rfl)
  exact h

/-- C10: for every cell list, `calculateDayStats` returns exactly 7
entries whose `day` fields are Monday through Sunday in the fixed order,
with `isWeekend` true exactly on the Saturday and Sunday entries —
independent of which days occur in the input. -/
theorem c10_seven_days (cells : List HeatmapCell) :
    (calculateDayStats cells).map (fun s => (s.day, s.isWeekend)) =
      [("Monday", false), ("Tuesday", false), ("Wednesday", false),
       ("Thursday", false), ("Friday", false), ("Saturday", true),
       ("Sunday", true)] := by
  simp only [calculateDayStats, days, List.enum, mkDayStat, List.map]
  norm_num

/-- JS object assignment `m[k] = f(m[k])` on a string-keyed object
modelled as an association list in key-insertion order: an existing key
is updated in place, a new key is appended at the end (exactly the
enumeration order `Object.entries` later reports). -/
def setA {β : Type} (k : String) (f : Option β → β) : List (String × β) → List (String × β)
  | [] => [(k, f none)]
  | (k', v) :: t => if k' = k then (k', f (some v)) :: t else (k', v) :: setA k f t

/-- JS object lookup `m[k]` (`none` models `undefined`). -/
def getA {β : Type} (k : String) : List (String × β) → Option β
  | [] => none
  | (k', v) :: t => if k' = k then some v else getA k t

theorem setA_ne_nil {β : Type} (k : String) (f : Option β → β)
    (l : List (String × β)) : setA k f l ≠ [] := by
  cases l with
  | nil => simp [setA]
  | cons p t =>
    obtain ⟨k', v⟩ := p
    by_cases h : k' = k <;> simp [setA, h]

/-- Object `hourlyTotals` from `generateDynamicInsights` (lines 82-85):
`hourlyTotals[cell.hour] = (hourlyTotals[cell.hour] || 0) + cell.value`,
accumulated over the cell list (an absent key and an existing `0` both
read as `0`, which `Option.getD 0` captures). -/
def hourlyTotalsOf (cells : List HeatmapCell) : List (String × ℚ) :=
  cells.foldl (fun m c => setA c.hour (fun v => v.getD 0 + c.value) m) []

/-- Object `dailyTotals` from `generateDynamicInsights` (lines 91-94). -/
def dailyTotalsOf (cells : List HeatmapCell) : List (String × ℚ) :=
  cells.foldl (fun m c => setA c.day (fun v => v.getD 0 + c.value) m) []

/-- JS `Array.prototype.reduce` with no initial value: the first element
seeds the accumulator, `none` models the `TypeError` on an empty array
(unreachable in the source because of the `data.length === 0` guard). -/
def jsReduceNI {α : Type} (f : α → α → α) : List α → Option α
  | [] => none
  | a :: l => some (l.foldl f a)

/-- The busiest-hour reduction of `generateDynamicInsights` (lines 86-88):
`Object.entries(hourlyTotals).reduce((a, b) => a[1] > b[1] ? a : b)` —
note the incumbent `a` is kept only when STRICTLY greater, so a tie is
taken over by the later entry. -/
def busiestHourEntry (cells : List HeatmapCell) : Option (String × ℚ) :=
  jsReduceNI (fun a b => if b.2 < a.2 then a else b) (hourlyTotalsOf cells)

/-- The busiest-day reduction (lines 95-97). -/
def busiestDayEntry (cells : List HeatmapCell) : Option (String × ℚ) :=
  jsReduceNI (fun a b => if b.2 < a.2 then a else b) (dailyTotalsOf cells)

/-- The quietest-hour reduction (lines 100-102):
`reduce((a, b) => a[1] < b[1] ? a : b)` — again the later entry wins a
tie. -/
def quietestHourEntry (cells : List HeatmapCell) : Option (String × ℚ) :=
  jsReduceNI (fun a b => if a.2 < b.2 then a else b) (hourlyTotalsOf cells)

/-- The busiest-hour selection as the spec sentence describes it: scan the
hour buckets in the FIXED enumeration order (`hours`), total each bucket,
and keep the FIRST bucket attaining the maximal sum.  Stated only to be
compared against `busiestHourEntry`. -/
def specBusiestHourFixedOrder (cells : List HeatmapCell) : Option (String × ℚ) :=
  jsReduceNI (fun a b => if a.2 < b.2 then b else a)
    (hours.map (fun hr => (hr, ((cells.filter (fun c => c.hour == hr)).map (fun c => c.value)).sum)))

/-- Two cells on the same day with EQUAL values at hours 00-02 and 02-04,
listed in the fixed day/hour enumeration order. -/
def ce4 : List HeatmapCell :=
  [HeatmapCell.mk "Monday" "00-02" 5 1 false,
   HeatmapCell.mk "Monday" "02-04" 5 1 false]

/-- C4 counterexample: on `ce4` the two hour buckets tie at 5, the code's
reduction returns the LAST tied bucket `02-04`, while the claimed
fixed-enumeration-order-first rule would return `00-02`. -/
theorem c4_counterexample :
    busiestHourEntry ce4 = some ("02-04", 5) ∧
    specBusiestHourFixedOrder ce4 = some ("00-02", 5) ∧
    (Option.map Prod.fst (busiestHourEntry ce4) ≠
      Option.map Prod.fst (specBusiestHourFixedOrder ce4)) := by
  have h1 : hourlyTotalsOf ce4 = [("00-02", 5), ("02-04", 5)] := by
    norm_num [hourlyTotalsOf, ce4, setA, List.foldl, String.reduceEq]
    decide
  have h2 : busiestHourEntry ce4 = some ("02-04", 5) := by
    rw [busiestHourEntry, h1]
    norm_num [jsReduceNI, List.foldl]
  have h3 : specBusiestHourFixedOrder ce4 = some ("00-02", 5) := by
    have hmap : hours.map (fun hr =>
        (hr, ((ce4.filter (fun c => c.hour == hr)).map (fun c => c.value)).sum)) =
        [("00-02", 5), ("02-04", 5), ("04-06", 0), ("06-08", 0), ("08-10", 0),
         ("10-12", 0), ("12-14", 0), ("14-16", 0), ("16-18", 0), ("18-20", 0),
         ("20-22", 0), ("22-00", 0)] := by
      norm_num [hours, ce4, List.filter, List.map, String.reduceBEq]
    rw [specBusiestHourFixedOrder, hmap]
    norm_num [jsReduceNI, List.foldl]
  refine ⟨h2, h3, ?_⟩
  rw [h2, h3]
  decide

theorem foldl_setA_ne_nil {β : Type} (key : HeatmapCell → String)
    (g : HeatmapCell → Option β → β) (l : List HeatmapCell) :
    ∀ m : List (String × β), m ≠ [] →
      l.foldl (fun m c => setA (key c) (g c) m) m ≠ [] := by
  induction l with
  | nil => intro m hm; exact hm
  | cons c t ih =>
    intro m hm
    exact ih _ (setA_ne_nil _ _ _)

theorem hourlyTotalsOf_ne_nil (c0 : HeatmapCell) (cs : List HeatmapCell) :
    hourlyTotalsOf (c0 :: cs) ≠ [] := by
  unfold hourlyTotalsOf
  rw [List.foldl_cons]
  exact foldl_setA_ne_nil (fun c => c.hour) (fun c v => v.getD 0 + c.value) cs _
    (setA_ne_nil _ _ _)

theorem dailyTotalsOf_ne_nil (c0 : HeatmapCell) (cs : List HeatmapCell) :
    dailyTotalsOf (c0 :: cs) ≠ [] := by
  unfold dailyTotalsOf
  rw [List.foldl_cons]
  exact foldl_setA_ne_nil (fun c => c.day) (fun c v => v.getD 0 + c.value) cs _
    (setA_ne_nil _ _ _)

/-- C4 amended: for every non-empty cell list, each of the three insight
reductions returns an entry of its totals table (whose key order is the
order of first occurrence in the cell list) with maximal (resp. minimal)
summed value, and every entry strictly AFTER the returned one is strictly
smaller (resp. larger) — i.e. ties resolve to the candidate encountered
last in the scan, not first. -/
theorem c4_amended (c0 : HeatmapCell) (cs : List HeatmapCell) :
    (∃ e pre post, busiestHourEntry (c0 :: cs) = some e ∧
      hourlyTotalsOf (c0 :: cs) = pre ++ e :: post ∧
      (∀ x ∈ hourlyTotalsOf (c0 :: cs), x.2 ≤ e.2) ∧
      (∀ x ∈ post, x.2 < e.2)) ∧
    (∃ e pre post, busiestDayEntry (c0 :: cs) = some e ∧
      dailyTotalsOf (c0 :: cs) = pre ++ e :: post ∧
      (∀ x ∈ dailyTotalsOf (c0 :: cs), x.2 ≤ e.2) ∧
      (∀ x ∈ post, x.2 < e.2)) ∧
    (∃ e pre post, quietestHourEntry (c0 :: cs) = some e ∧
      hourlyTotalsOf (c0 :: cs) = pre ++ e :: post ∧
      (∀ x ∈ hourlyTotalsOf (c0 :: cs), e.2 ≤ x.2) ∧
      (∀ x ∈ post, e.2 < x.2)) := by
  refine ⟨?_, ?_, ?_⟩
  · obtain ⟨e0, es, htot⟩ := List.exists_cons_of_ne_nil (hourlyTotalsOf_ne_nil c0 cs)
    refine ⟨pickL (fun p => p.2) e0 es, ?_⟩
    obtain ⟨pre, post, heq, hpost⟩ := pickL_last (fun p => p.2) e0 es
    refine ⟨pre, post, ?_, ?_, ?_, hpost⟩
    · show jsReduceNI _ (hourlyTotalsOf (c0 :: cs)) = _
      rw [htot]; rfl
    · rw [htot]; exact heq
    · rw [htot]; exact pickL_max (fun p => p.2) e0 es
  · obtain ⟨e0, es, htot⟩ := List.exists_cons_of_ne_nil (dailyTotalsOf_ne_nil c0 cs)
    refine ⟨pickL (fun p => p.2) e0 es, ?_⟩
    obtain ⟨pre, post, heq, hpost⟩ := pickL_last (fun p => p.2) e0 es
    refine ⟨pre, post, ?_, ?_, ?_, hpost⟩
    · show jsReduceNI _ (dailyTotalsOf (c0 :: cs)) = _
      rw [htot]; rfl
    · rw [htot]; exact heq
    · rw [htot]; exact pickL_max (fun p => p.2) e0 es
  · obtain ⟨e0, es, htot⟩ := List.exists_cons_of_ne_nil (hourlyTotalsOf_ne_nil c0 cs)
    refine ⟨pickLmin (fun p => p.2) e0 es, ?_⟩
    obtain ⟨pre, post, heq, hpost⟩ := pickLmin_last (fun p => p.2) e0 es
    refine ⟨pre, post, ?_, ?_, ?_, hpost⟩
    · show jsReduceNI _ (hourlyTotalsOf (c0 :: cs)) = _
      rw [htot]; rfl
    · rw [htot]; exact heq
    · rw [htot]; exact pickLmin_min (fun p => p.2) e0 es

/-- The per-hour record built by `generateHourlyData`: the `hour` label
plus the day-keyed numeric fields (`hourlyMap[cell.hour][cell.day.toLowerCase()]`),
in JS-object key order. -/
structure HourlyRec : Type where
  hour : String
  fields : List (String × ℚ)
deriving DecidableEq, Repr

/-- One step of the `heatmapData.forEach` loop in `generateHourlyData`
(lines 232-237): create the `{ hour }` record if the hour key is absent,
then assign `record[cell.day.toLowerCase()] = cell.value`. -/
def hourlyStep (m : List (String × HourlyRec)) (c : HeatmapCell) : List (String × HourlyRec) :=
  setA c.hour (fun r =>
    match r with
    | none => { hour := c.hour, fields := setA c.day.toLower (fun _ => c.value) [] }
    | some r0 => { r0 with fields := setA c.day.toLower (fun _ => c.value) r0.fields }) m

/-- The `hourlyMap` object after the `forEach` loop. -/
def hourlyMapOf (cells : List HeatmapCell) : List (String × HourlyRec) :=
  cells.foldl hourlyStep []

/-- Function `generateHourlyData` (lines 229-240): `hours.map((hour) => hourlyMap[hour])`.
An hour with no cells maps to `undefined` (`none`), not to a record. -/
def generateHourlyData (cells : List HeatmapCell) : List (Option HourlyRec) :=
  hours.map (fun h => getA h (hourlyMapOf cells))

/-- A single Monday cell at hour 00-02. -/
def ce7 : List HeatmapCell := [HeatmapCell.mk "Monday" "00-02" 5 1 false]

/-- C7 counterexample: on a cell list with a single 00-02 cell, the pivot
entry for the second fixed hour bucket (02-04) is `undefined` (`none`),
not a record — refuting "exactly one record for each of the 12 fixed
hour-buckets". -/
theorem c7_counterexample :
    (generateHourlyData ce7).length = 12 ∧
    (generateHourlyData ce7)[1]? = some none := by
  exact ⟨rfl, rfl⟩

theorem getA_setA_self {β : Type} (k : String) (f : Option β → β)
    (m : List (String × β)) : getA k (setA k f m) = some (f (getA k m)) := by
  induction m with
  | nil => simp [setA, getA]
  | cons p t ih =>
    obtain ⟨k', v⟩ := p
    by_cases h : k' = k
    · simp [setA, getA, h]
    · simp [setA, getA, h, ih]

theorem getA_setA_ne {β : Type} (k k2 : String) (hne : k ≠ k2) (f : Option β → β)
    (m : List (String × β)) : getA k2 (setA k f m) = getA k2 m := by
  induction m with
  | nil => simp [setA, getA, hne]
  | cons p t ih =>
    obtain ⟨k', v⟩ := p
    by_cases h : k' = k
    · subst h
      simp [setA, getA, hne]
    · by_cases h2 : k' = k2
      · subst h2
        rw [setA.eq_def]
        simp only []
        rw [if_neg h]
        simp [getA]
      · simp [setA, getA, h, h2, ih]

theorem hourlyMapOf_append_singleton (l : List HeatmapCell) (c : HeatmapCell) :
    hourlyMapOf (l ++ [c]) = hourlyStep (hourlyMapOf l) c := by
  simp [hourlyMapOf, List.foldl_append]

/-- The pivot has an entry for an hour exactly when some cell carries that
hour. -/
theorem getA_hourlyMapOf_none (cells : List HeatmapCell) (hr : String) :
    getA hr (hourlyMapOf cells) = none ↔ ∀ c ∈ cells, c.hour ≠ hr := by
  induction cells using List.reverseRecOn with
  | nil => simp [hourlyMapOf, getA]
  | append_singleton l c ih =>
    rw [hourlyMapOf_append_singleton, hourlyStep]
    by_cases hc : c.hour = hr
    · subst hc
      rw [getA_setA_self]
      simp only [reduceCtorEq, false_iff, not_forall]
      exact ⟨c, by simp, by simp⟩
    · rw [getA_setA_ne _ _ hc]
      simp only [List.mem_append, List.mem_singleton]
      constructor
      · intro h x hx
        rcases hx with hx | rfl
        · exact (ih.mp h) x hx
        · exact hc
      · intro h
        exact ih.mpr (fun x hx => h x (Or.inl hx))

/-- A present pivot entry carries its own hour label. -/
theorem getA_hourlyMapOf_hour (cells : List HeatmapCell) (hr : String)
    (r : HourlyRec) (hget : getA hr (hourlyMapOf cells) = some r) : r.hour = hr := by
  induction cells using List.reverseRecOn generalizing r with
  | nil => simp [hourlyMapOf, getA] at hget
  | append_singleton l c ih =>
    rw [hourlyMapOf_append_singleton, hourlyStep] at hget
    by_cases hc : c.hour = hr
    · subst hc
      rw [getA_setA_self] at hget
      obtain rfl := Option.some.inj hget
      cases hm : getA c.hour (hourlyMapOf l) with
      | none => rfl
      | some r0 => exact ih r0 hm
    · rw [getA_setA_ne _ _ hc] at hget
      exact ih r hget

/-- Field characterisation of a present pivot entry, for cell lists that
satisfy the documented grid invariant (at most one cell per
(hour, lowercase-day) pair): the record for hour `hr` holds, under each
lowercase day key `d`, exactly the value of the unique matching cell, and
no key at all when no cell matches. -/
theorem getA_hourlyMapOf_fields (cells : List HeatmapCell) :
    cells.Pairwise (fun c c' => ¬(c.hour = c'.hour ∧ c.day.toLower = c'.day.toLower)) →
    ∀ (hr : String) (r : HourlyRec), getA hr (hourlyMapOf cells) = some r →
    ∀ d : String, getA d r.fields =
      (cells.find? (fun c => c.hour == hr && c.day.toLower == d)).map (fun c => c.value) := by
  induction cells using List.reverseRecOn with
  | nil => intro _ hr r hget; simp [hourlyMapOf, getA] at hget
  | append_singleton l c ih =>
    intro huniq hr r hget d
    obtain ⟨hl, -, hcross0⟩ := List.pairwise_append.mp huniq
    have hcross : ∀ a ∈ l, ¬(a.hour = c.hour ∧ a.day.toLower = c.day.toLower) :=
      fun a ha => hcross0 a ha c (List.mem_singleton_self _)
    rw [hourlyMapOf_append_singleton, hourlyStep] at hget
    rw [List.find?_append]
    by_cases hc : c.hour = hr
    · subst hc
      rw [getA_setA_self] at hget
      obtain rfl := Option.some.inj hget
      cases hm : getA c.hour (hourlyMapOf l) with
      | none =>
        have hnone : l.find? (fun x => x.hour == c.hour && x.day.toLower == d) = none := by
          rw [List.find?_eq_none]
          intro x hx hpx
          simp only [Bool.and_eq_true, beq_iff_eq] at hpx
          exact ((getA_hourlyMapOf_none l c.hour).mp hm) x hx hpx.1
        rw [hnone, Option.none_or]
        by_cases hd : c.day.toLower = d
        · subst hd
          rw [List.find?_cons_of_pos _ (by simp)]
          simp [setA, getA]
        · rw [List.find?_cons_of_neg _ (by simp [hd])]
          simp [setA, getA, hd]
      | some r0 =>
        have ihd := ih hl c.hour r0 hm d
        by_cases hd : c.day.toLower = d
        · subst hd
          have hnone : l.find? (fun x => x.hour == c.hour && x.day.toLower == c.day.toLower) = none := by
            rw [List.find?_eq_none]
            intro x hx hpx
            simp only [Bool.and_eq_true, beq_iff_eq] at hpx
            exact hcross x hx hpx
          rw [hnone, Option.none_or, List.find?_cons_of_pos _ (by simp)]
          rw [getA_setA_self]
          rfl
        · rw [List.find?_cons_of_neg _ (by simp [hd]), List.find?_nil, Option.or_none]
          rw [getA_setA_ne _ _ hd]
          exact ihd
    · rw [getA_setA_ne _ _ hc] at hget
      rw [List.find?_cons_of_neg _ (by simp [hc]), List.find?_nil, Option.or_none]
      exact ih hl hr r hget d

/-- C7 amended: the hourly pivot is a 12-entry list aligned with the fixed
hour-bucket order; the entry for an hour bucket is `undefined` (`none`)
exactly when NO cell carries that hour (so missing hours do not get a
record at all), and a present record carries the hour label and, keyed by
lowercase day name, exactly the values of the days that have a matching
cell — the field is absent (not zero) for every other key.  The cell list
is assumed to satisfy the documented grid invariant of at most one cell
per (hour, day) pair. -/
theorem c7_amended (cells : List HeatmapCell)
    (huniq : cells.Pairwise (fun c c' => ¬(c.hour = c'.hour ∧ c.day.toLower = c'.day.toLower))) :
    (generateHourlyData cells).length = 12 ∧
    generateHourlyData cells = hours.map (fun hr => getA hr (hourlyMapOf cells)) ∧
    ∀ hr ∈ hours,
      (getA hr (hourlyMapOf cells) = none ↔ ∀ c ∈ cells, c.hour ≠ hr) ∧
      ∀ r : HourlyRec, getA hr (hourlyMapOf cells) = some r →
        r.hour = hr ∧
        ∀ d : String, getA d r.fields =
          (cells.find? (fun c => c.hour == hr && c.day.toLower == d)).map (fun c => c.value) := by
  refine ⟨by simp [generateHourlyData, hours], rfl, ?_⟩
  intro hr _
  refine ⟨getA_hourlyMapOf_none cells hr, ?_⟩
  intro r hget
  exact ⟨getA_hourlyMapOf_hour cells hr r hget,
    getA_hourlyMapOf_fields cells huniq hr r hget⟩

/-- Witness for C7 amended at the single-cell input `ce7`. -/
theorem c7_amended_witness :
    (generateHourlyData ce7).length = 12 ∧
    generateHourlyData ce7 = hours.map (fun hr => getA hr (hourlyMapOf ce7)) ∧
    ∀ hr ∈ hours,
      (getA hr (hourlyMapOf ce7) = none ↔ ∀ c ∈ ce7, c.hour ≠ hr) ∧
      ∀ r : HourlyRec, getA hr (hourlyMapOf ce7) = some r →
        r.hour = hr ∧
        ∀ d : String, getA d r.fields =
          (ce7.find? (fun c => c.hour == hr && c.day.toLower == d)).map (fun c => c.value) :=
  c7_amended ce7 (by simp [ce7])

/-! ## Revenue trends: `calculateServiceStats`, fastest-growth selection -/

/-- Interface `RevenueDataPoint` from the revenue-trends component. -/
structure RevenueDataPoint : Type where
  date : String
  dateLabel : String
  electricity : ℚ
  mobileMoney : ℚ
  airtime : ℚ
  water : ℚ
  total : ℚ
  isPeak : Bool
  isHoliday : Bool
  isProjected : Bool
  growth : Option ℚ
deriving DecidableEq, Repr

/-- Interface `ServiceRevenue` from the revenue-trends component (the React `icon`
component, pure UI metadata, is not modelled).  `percentage` and `trend`
are `JSVal` because the source computes them with unguarded divisions. -/
structure ServiceRevenue : Type where
  name : String
  value : ℚ
  color : String
  percentage : JSVal
  trend : JSVal
deriving DecidableEq, Repr

/-- Stable insertion used to model `Array.prototype.sort(comparator)`:
an element is inserted after every element `b` with `le b a` (so equal
elements keep their original relative order).  `Array.prototype.sort` is
required to be stable, and for a consistent comparator every stable sort
produces the same output, so insertion sort is a faithful model wherever
the comparator is consistent (all uses below). -/
def stableInsert {α : Type} (le : α → α → Bool) (a : α) : List α → List α
  | [] => [a]
  | b :: t => if le b a then b :: stableInsert le a t else a :: b :: t

/-- Stable sort: insert the elements left to right. -/
def stableSort {α : Type} (le : α → α → Bool) (l : List α) : List α :=
  l.foldl (fun acc a => stableInsert le a acc) []

/-- The descending-by-value comparator `(a, b) => b.value - a.value`:
`a` may stay before `b` exactly when the comparator is not positive. -/
def valueDescLe (a b : ServiceRevenue) : Bool := decide (b.value - a.value ≤ 0)

/-- The descending-by-trend comparator `(a, b) => b.trend - a.trend` on JS
values: `a` may stay before `b` unless the comparator result is a number
greater than `+0` (a `NaN` comparator result is treated as `0` by the
sort). -/
def trendDescLe (a b : ServiceRevenue) : Bool :=
  !(JSVal.lt (JSVal.num 0) (JSVal.sub b.trend a.trend))

/-- One entry of the `Object.keys(serviceMeta).map(...)` callback in
`calculateServiceStats` (lines 1602-1622):

* `serviceTotal = data.reduce((sum, d) => sum + d[key], 0)`
* `startAvg = data.slice(0, 3).reduce(...) / 3 || 1` — note the division
  is ALWAYS by 3, regardless of how many records the slice holds, and a
  zero quotient is replaced by `1` via `||`;
* `endAvg = data.slice(-3).reduce(...) / 3 || 1` likewise;
* `trend = ((endAvg - startAvg) / startAvg) * 100`;
* `percentage = Math.round((serviceTotal / totalRev) * 100)` — unguarded
  against `totalRev = 0`;
* `trend` is returned as `Math.round(trend * 10) / 10`. -/
def serviceEntry (data : List RevenueDataPoint) (totalRev : ℚ)
    (name color : String) (f : RevenueDataPoint → ℚ) : ServiceRevenue :=
  let serviceTotal := sumQ f data
  let startAvg := JSVal.orElse (JSVal.num (sumQ f (data.take 3) / 3)) (JSVal.num 1)
  let endAvg := JSVal.orElse (JSVal.num (sumQ f (data.drop (data.length - 3)) / 3)) (JSVal.num 1)
  let trend := JSVal.mul (JSVal.div (JSVal.sub endAvg startAvg) startAvg) (JSVal.num 100)
  { name := name
    value := serviceTotal
    color := color
    percentage := JSVal.round (JSVal.mul
      (JSVal.div (JSVal.num serviceTotal) (JSVal.num totalRev)) (JSVal.num 100))
    trend := JSVal.div (JSVal.round (JSVal.mul trend (JSVal.num 10))) (JSVal.num 10) }

/-- Function `calculateServiceStats` (lines 1589-1624): empty data gives `[]`;
otherwise one entry per fixed service key (in `serviceMeta` key order),
sorted descending by `value` (`.sort((a, b) => b.value - a.value)`). -/
def calculateServiceStats (data : List RevenueDataPoint) : List ServiceRevenue :=
  match data with
  | [] => []
  | _ :: _ =>
    let totalRev := sumQ (fun d => d.total) data
    stableSort valueDescLe
      [serviceEntry data totalRev "Electricity Tokens" "#3B82F6" (fun d => d.electricity),
       serviceEntry data totalRev "Mobile Money" "#10B981" (fun d => d.mobileMoney),
       serviceEntry data totalRev "Airtime Sales" "#8B5CF6" (fun d => d.airtime),
       serviceEntry data totalRev "Water Bills" "#F59E0B" (fun d => d.water)]

/-- The fastest-growth selection of `generateRevenueInsights` (line 1637):
`[...services].sort((a, b) => b.trend - a.trend)[0]` — the insight card
then reports this entry's name and trend. -/
def growthStar (services : List ServiceRevenue) : Option ServiceRevenue :=
  (stableSort trendDescLe services).head?

/-- The 3-record revenue series of the C3 scenario: category A
(electricity) has per-record values 10, 10, 10 and category B
(mobileMoney) has 5, 5, 20; the other two categories are zero. -/
def ce3 : List RevenueDataPoint :=
  [RevenueDataPoint.mk "d1" "" 10 5 0 0 15 false false false none,
   RevenueDataPoint.mk "d2" "" 10 5 0 0 15 false false false none,
   RevenueDataPoint.mk "d3" "" 10 20 0 0 30 false false false none]

/-- C3 counterexample: on the scenario series (3 records, A = [10,10,10],
B = [5,5,20]) BOTH windows `slice(0, 3)` and `slice(-3)` are the whole
series, so every category's trend is 0 — in particular B's trend is 0,
not the claimed 300% — and the fastest-growing insight names the first
category of the value ordering ("Electricity Tokens", i.e. A), not B. -/
theorem c3_counterexample :
    (calculateServiceStats ce3).map (fun s => (s.name, s.trend)) =
      [("Electricity Tokens", JSVal.num 0), ("Mobile Money", JSVal.num 0),
       ("Airtime Sales", JSVal.num 0), ("Water Bills", JSVal.num 0)] ∧
    (growthStar (calculateServiceStats ce3)).map (fun s => s.name) =
      some "Electricity Tokens" ∧
    JSVal.num 0 ≠ JSVal.num 300 ∧
    ("Electricity Tokens" : String) ≠ "Mobile Money" := by
  have h1 : calculateServiceStats ce3 =
      [{ name := "Electricity Tokens", value := 30, color := "#3B82F6",
         percentage := JSVal.num 50, trend := JSVal.num 0 },
       { name := "Mobile Money", value := 30, color := "#10B981",
         percentage := JSVal.num 50, trend := JSVal.num 0 },
       { name := "Airtime Sales", value := 0, color := "#8B5CF6",
         percentage := JSVal.num 0, trend := JSVal.num 0 },
       { name := "Water Bills", value := 0, color := "#F59E0B",
         percentage := JSVal.num 0, trend := JSVal.num 0 }] := by
    norm_num [calculateServiceStats, ce3, serviceEntry, sumQ, List.foldl,
      List.take, List.drop, stableSort, stableInsert, valueDescLe,
      JSVal.orElse, JSVal.falsy, JSVal.div, JSVal.mul, JSVal.sub, JSVal.add,
      JSVal.neg, JSVal.round, beq_iff_eq]
  refine ⟨?_, ?_, ?_, ?_⟩
  · rw [h1]; rfl
  · rw [growthStar, h1]
    norm_num [stableSort, stableInsert, trendDescLe, JSVal.lt, JSVal.sub,
      JSVal.add, JSVal.neg]
  · intro h
    have := JSVal.num.inj h
    norm_num at this
  · decide

theorem stableInsert_perm {α : Type} (le : α → α → Bool) (a : α) (l : List α) :
    (stableInsert le a l).Perm (a :: l) := by
  induction l with
  | nil => exact List.Perm.refl _
  | cons b t ih =>
    rw [stableInsert]
    by_cases h : le b a = true
    · rw [if_pos h]
      exact (List.Perm.cons b ih).trans (List.Perm.swap a b t)
    · rw [if_neg h]

theorem stableSort_perm {α : Type} (le : α → α → Bool) (l : List α) :
    (stableSort le l).Perm l := by
  have aux : ∀ (l acc : List α),
      (l.foldl (fun acc a => stableInsert le a acc) acc).Perm (acc ++ l) := by
    intro l
    induction l with
    | nil => intro acc; simp
    | cons a t ih =>
      intro acc
      rw [List.foldl_cons]
      refine (ih (stableInsert le a acc)).trans ?_
      refine (List.Perm.append_right t (stableInsert_perm le a acc)).trans ?_
      exact (List.perm_middle).symm
  simpa using aux l []

theorem stableInsert_all_true {α : Type} (le : α → α → Bool) (a : α) (acc : List α)
    (h : ∀ b ∈ acc, le b a = true) : stableInsert le a acc = acc ++ [a] := by
  induction acc with
  | nil => rfl
  | cons b t ih =>
    rw [stableInsert, if_pos (h b (List.mem_cons_self _ _)), List.cons_append]
    rw [ih (fun x hx => h x (List.mem_cons_of_mem _ hx))]

theorem stableSort_all_true {α : Type} (le : α → α → Bool) (l : List α)
    (h : ∀ x ∈ l, ∀ y ∈ l, le x y = true) : stableSort le l = l := by
  have aux : ∀ (l acc : List α),
      (∀ x y, (x ∈ acc ∨ x ∈ l) → y ∈ l → le x y = true) →
      l.foldl (fun acc a => stableInsert le a acc) acc = acc ++ l := by
    intro l
    induction l with
    | nil => intro acc _; simp
    | cons a t ih =>
      intro acc hacc
      rw [List.foldl_cons]
      rw [stableInsert_all_true le a acc
        (fun b hb => hacc b a (Or.inl hb) (List.mem_cons_self _ _))]
      rw [ih (acc ++ [a]) ?_]
      · rw [List.append_assoc]; rfl
      · intro x y hx hy
        rcases hx with hx | hx
        · rw [List.mem_append, List.mem_singleton] at hx
          rcases hx with hx | rfl
          · exact hacc x y (Or.inl hx) (List.mem_cons_of_mem _ hy)
          · exact hacc x y (Or.inr (List.mem_cons_self _ _)) (List.mem_cons_of_mem _ hy)
        · exact hacc x y (Or.inr (List.mem_cons_of_mem _ hx)) (List.mem_cons_of_mem _ hy)
  simpa using aux l [] (fun x y hx hy => h x (hx.resolve_left (by simp)) y hy)

/-- The trend computation of `serviceEntry` when the start and end windows
coincide: whatever the common quotient `s` is, the trend rounds to `0`
(this also covers the `|| 1` replacement when `s = 0`). -/
theorem trend_round_zero (s : ℚ) :
    JSVal.div (JSVal.round (JSVal.mul (JSVal.mul (JSVal.div
      (JSVal.sub (JSVal.orElse (JSVal.num s) (JSVal.num 1))
        (JSVal.orElse (JSVal.num s) (JSVal.num 1)))
      (JSVal.orElse (JSVal.num s) (JSVal.num 1))) (JSVal.num 100)) (JSVal.num 10)))
      (JSVal.num 10) = JSVal.num 0 := by
  by_cases h : s = 0
  · subst h
    norm_num [JSVal.orElse, JSVal.falsy, JSVal.sub, JSVal.add, JSVal.neg,
      JSVal.div, JSVal.mul, JSVal.round]
  · have hfalsy : JSVal.falsy (JSVal.num s) = false := by
      simp [JSVal.falsy, h]
    norm_num [JSVal.orElse, hfalsy, JSVal.sub, JSVal.add, JSVal.neg,
      JSVal.div, JSVal.mul, JSVal.round, h]

/-- On a 3-record series, both windows of the per-category trend are the
whole series, so the trend is 0. -/
theorem serviceEntry_trend_three (a b c : RevenueDataPoint) (T : ℚ)
    (n col : String) (f : RevenueDataPoint → ℚ) :
    (serviceEntry [a, b, c] T n col f).trend = JSVal.num 0 :=
  trend_round_zero (sumQ f [a, b, c] / 3)

/-- C3 amended: `calculateServiceStats` divides each window sum by 3
regardless of how many records the slice holds, and for a series of
exactly 3 records the first-3 and last-3 windows are both the whole
series — so EVERY category's trend is 0, and the fastest-growing insight
degenerates to the head of the value-sorted list (the dominant category),
since the trend sort moves nothing. -/
theorem c3_amended (data : List RevenueDataPoint) (hlen : data.length = 3) :
    (∀ s ∈ calculateServiceStats data, s.trend = JSVal.num 0) ∧
    growthStar (calculateServiceStats data) = (calculateServiceStats data).head? := by
  rcases data with _ | ⟨a, _ | ⟨b, _ | ⟨c, _ | ⟨d, t⟩⟩⟩⟩
  · simp at hlen
  · simp at hlen
  · simp at hlen
  · have htrends : ∀ s ∈ calculateServiceStats [a, b, c], s.trend = JSVal.num 0 := by
      intro s hs
      have hmem := (stableSort_perm valueDescLe _).mem_iff.mp hs
      simp only [List.mem_cons, List.not_mem_nil, or_false] at hmem
      rcases hmem with rfl | rfl | rfl | rfl <;>
        exact serviceEntry_trend_three a b c _ _ _ _
    refine ⟨htrends, ?_⟩
    rw [growthStar, stableSort_all_true trendDescLe _ ?_]
    intro x hx y hy
    rw [trendDescLe, htrends x hx, htrends y hy]
    norm_num [JSVal.lt, JSVal.sub, JSVal.add, JSVal.neg]
  · simp at hlen

/-- Witness for C3 amended at the scenario input `ce3`. -/
theorem c3_amended_witness :
    (∀ s ∈ calculateServiceStats ce3, s.trend = JSVal.num 0) ∧
    growthStar (calculateServiceStats ce3) = (calculateServiceStats ce3).head? :=
  c3_amended ce3 rfl

/-- A non-empty revenue series whose grand total is 0 (a single all-zero
record). -/
def ce9 : List RevenueDataPoint :=
  [RevenueDataPoint.mk "d1" "" 0 0 0 0 0 false false false none]

/-- C9 counterexample: on a non-empty series with grand total 0, every
share percentage is `NaN` (`Math.round((0 / 0) * 100)`), because the
percentage computation has no zero-total guard — refuting "no percentage
is NaN" (and a fortiori the sum-to-100 property). -/
theorem c9_counterexample :
    ce9 ≠ [] ∧
    (calculateServiceStats ce9).map (fun s => s.percentage) =
      [JSVal.nan, JSVal.nan, JSVal.nan, JSVal.nan] := by
  constructor
  · simp [ce9]
  · have h1 : calculateServiceStats ce9 =
        [{ name := "Electricity Tokens", value := 0, color := "#3B82F6",
           percentage := JSVal.nan, trend := JSVal.num 0 },
         { name := "Mobile Money", value := 0, color := "#10B981",
           percentage := JSVal.nan, trend := JSVal.num 0 },
         { name := "Airtime Sales", value := 0, color := "#8B5CF6",
           percentage := JSVal.nan, trend := JSVal.num 0 },
         { name := "Water Bills", value := 0, color := "#F59E0B",
           percentage := JSVal.nan, trend := JSVal.num 0 }] := by
      norm_num [calculateServiceStats, ce9, serviceEntry, sumQ, List.foldl,
        List.take, List.drop, stableSort, stableInsert, valueDescLe,
        JSVal.orElse, JSVal.falsy, JSVal.div, JSVal.mul, JSVal.sub, JSVal.add,
        JSVal.neg, JSVal.round, beq_iff_eq]
    rw [h1]
    rfl

theorem serviceEntry_percentage (data : List RevenueDataPoint) (T : ℚ)
    (hT : T ≠ 0) (n col : String) (f : RevenueDataPoint → ℚ) :
    (serviceEntry data T n col f).percentage =
      JSVal.num (qRound (sumQ f data / T * 100)) := by
  show JSVal.round (JSVal.mul (JSVal.div (JSVal.num (sumQ f data)) (JSVal.num T))
    (JSVal.num 100)) = _
  rw [JSVal.div, if_neg hT]
  rw [JSVal.mul, JSVal.round, qRound]

theorem qRound_close (x : ℚ) : -(1/2) ≤ qRound x - x ∧ qRound x - x ≤ 1/2 := by
  have h1 : ((⌊x + 1/2⌋ : ℤ) : ℚ) ≤ x + 1/2 := Int.floor_le _
  have h2 : x + 1/2 - 1 < ((⌊x + 1/2⌋ : ℤ) : ℚ) := Int.sub_one_lt_floor _
  rw [qRound]
  constructor <;> linarith

theorem sum_map_add4 {α : Type} (f1 f2 f3 f4 : α → ℚ) (l : List α) :
    (l.map f1).sum + (l.map f2).sum + (l.map f3).sum + (l.map f4).sum =
      (l.map (fun d => f1 d + f2 d + f3 d + f4 d)).sum := by
  induction l with
  | nil => simp
  | cons a t ih =>
    simp only [List.map_cons, List.sum_cons]
    linarith

/-- C9 amended: for a non-empty revenue series whose per-record `total`
equals the sum of its four category fields and whose grand total is
positive, every share percentage is a finite integer (no `NaN`) and the
four percentages sum to within ±2 of 100 (each of the four roundings
moves its exact share by at most 1/2). -/
theorem c9_amended (d0 : RevenueDataPoint) (ds : List RevenueDataPoint)
    (hconsist : ∀ d ∈ d0 :: ds,
      d.total = d.electricity + d.mobileMoney + d.airtime + d.water)
    (hpos : 0 < sumQ (fun d => d.total) (d0 :: ds)) :
    (∀ s ∈ calculateServiceStats (d0 :: ds), ∃ p : ℤ, s.percentage = JSVal.num p) ∧
    |((calculateServiceStats (d0 :: ds)).map (fun s => (s.percentage).toQ)).sum - 100| ≤ 2 := by
  have hT : sumQ (fun d => d.total) (d0 :: ds) ≠ 0 := ne_of_gt hpos
  set T := sumQ (fun d => d.total) (d0 :: ds) with hTdef
  have hunfold : calculateServiceStats (d0 :: ds) = stableSort valueDescLe
      [serviceEntry (d0 :: ds) T "Electricity Tokens" "#3B82F6" (fun d => d.electricity),
       serviceEntry (d0 :: ds) T "Mobile Money" "#10B981" (fun d => d.mobileMoney),
       serviceEntry (d0 :: ds) T "Airtime Sales" "#8B5CF6" (fun d => d.airtime),
       serviceEntry (d0 :: ds) T "Water Bills" "#F59E0B" (fun d => d.water)] := rfl
  have hsumT : sumQ (fun d => d.electricity) (d0 :: ds) +
      sumQ (fun d => d.mobileMoney) (d0 :: ds) +
      sumQ (fun d => d.airtime) (d0 :: ds) +
      sumQ (fun d => d.water) (d0 :: ds) = T := by
    rw [hTdef]
    simp only [sumQ_eq_sum_map]
    rw [sum_map_add4]
    exact congrArg List.sum (List.map_congr_left (fun d hd => (hconsist d hd).symm))
  constructor
  · intro s hs
    rw [hunfold] at hs
    have hmem := (stableSort_perm valueDescLe _).mem_iff.mp hs
    simp only [List.mem_cons, List.not_mem_nil, or_false] at hmem
    rcases hmem with rfl | rfl | rfl | rfl <;>
      exact ⟨_, serviceEntry_percentage _ _ hT _ _ _⟩
  · rw [hunfold]
    rw [List.Perm.sum_eq (List.Perm.map _ (stableSort_perm valueDescLe _))]
    simp only [List.map_cons, List.map_nil, List.sum_cons, List.sum_nil, add_zero]
    rw [serviceEntry_percentage _ _ hT, serviceEntry_percentage _ _ hT,
      serviceEntry_percentage _ _ hT, serviceEntry_percentage _ _ hT]
    simp only [JSVal.toQ]
    set ve := sumQ (fun d => d.electricity) (d0 :: ds)
    set vm := sumQ (fun d => d.mobileMoney) (d0 :: ds)
    set va := sumQ (fun d => d.airtime) (d0 :: ds)
    set vw := sumQ (fun d => d.water) (d0 :: ds)
    have hx : ve / T * 100 + vm / T * 100 + va / T * 100 + vw / T * 100 = 100 := by
      field_simp
      linarith [hsumT]
    obtain ⟨he1, he2⟩ := qRound_close (ve / T * 100)
    obtain ⟨hm1, hm2⟩ := qRound_close (vm / T * 100)
    obtain ⟨ha1, ha2⟩ := qRound_close (va / T * 100)
    obtain ⟨hw1, hw2⟩ := qRound_close (vw / T * 100)
    rw [abs_le]
    constructor <;> linarith

/-- Witness for C9 amended: two records with consistent totals `6` and
`4` (grand total 10). -/
theorem c9_amended_witness :
    (∀ s ∈ calculateServiceStats
        [RevenueDataPoint.mk "d1" "" 1 2 3 0 6 false false false none,
         RevenueDataPoint.mk "d2" "" 0 0 0 4 4 false false false none],
      ∃ p : ℤ, s.percentage = JSVal.num p) ∧
    |((calculateServiceStats
        [RevenueDataPoint.mk "d1" "" 1 2 3 0 6 false false false none,
         RevenueDataPoint.mk "d2" "" 0 0 0 4 4 false false false none]).map
      (fun s => (s.percentage).toQ)).sum - 100| ≤ 2 :=
  c9_amended (RevenueDataPoint.mk "d1" "" 1 2 3 0 6 false false false none)
    [RevenueDataPoint.mk "d2" "" 0 0 0 4 4 false false false none]
    (by intro d hd
        simp only [List.mem_cons, List.not_mem_nil, or_false] at hd
        rcases hd with rfl | rfl <;> norm_num)
    (by norm_num [sumQ, List.foldl])
